import Mathlib

set_option autoImplicit false
set_option maxHeartbeats 1000000

/-!
Shallow embedding of `fiximports.py` from gnucash-fiximports: the rules-file
reader (`readrules`), the regex subset its patterns use, account-path
resolution (`account_from_path`), the first-match categorization engine
(`get_ac_from_str`), and the split fix-up driver from `main`.

Strings are embedded as `List Char`; a rules file is a list of lines, each a
`List Char` without a newline character (Python's `for line in fd` yields one
line at a time and `str.strip()` removes the trailing newline before any
other processing).
-/

/-- Modelled from the spec: abstract syntax for the subset of the external
`re` library's regular expressions that the repository's patterns use —
literal characters, the any-character dot (which does not match a newline),
character-class ranges such as `[A-Z]`, Kleene star, alternation (needed
internally by derivatives), and bounded repetition `\x7bn\x7d` encoded by
expansion.  The spec fixes the collaborator's semantics: case-sensitive,
`search` is substring-anywhere, `match` is anchored at the start only. -/
inductive Regex where
  | emptyset
  | epsilon
  | char (c : Char)
  | cls (lo hi : Char)
  | dot
  | seq (a b : Regex)
  | alt (a b : Regex)
  | star (r : Regex)
  deriving DecidableEq

/-- Whether a regex accepts the empty string. -/
def nullable : Regex → Bool
  | .emptyset => false
  | .epsilon => true
  | .char _ => false
  | .cls _ _ => false
  | .dot => false
  | .seq a b => nullable a && nullable b
  | .alt a b => nullable a || nullable b
  | .star _ => true

/-- Brzozowski derivative (derivRx) of a regex with respect to one character. -/
def derivRx : Regex → Char → Regex
  | .emptyset, _ => .emptyset
  | .epsilon, _ => .emptyset
  | .char c, x => if x = c then .epsilon else .emptyset
  | .cls lo hi, x => if lo ≤ x ∧ x ≤ hi then .epsilon else .emptyset
  | .dot, x => if x = '\n' then .emptyset else .epsilon
  | .seq a b, x =>
      if nullable a then .alt (.seq (derivRx a x) b) (derivRx b x)
      else .seq (derivRx a x) b
  | .alt a b, x => .alt (derivRx a x) (derivRx b x)
  | .star r, x => .seq (derivRx r x) (.star r)

/-- Whether some prefix of the input (possibly empty) is accepted by the
regex: this is the semantics of Python's `re.match` at position 0, which
succeeds as soon as any leading portion of the string is in the language. -/
def matchFromStart (r : Regex) : List Char → Bool
  | [] => nullable r
  | c :: rest => nullable r || matchFromStart (derivRx r c) rest

/-- Whether the regex matches starting at some position of the input: the
semantics of Python's `re.search`, which slides the anchored attempt over
every start position. -/
def searchFrom (r : Regex) : List Char → Bool
  | [] => nullable r
  | c :: rest => matchFromStart r (c :: rest) || searchFrom r rest

/-- A compiled pattern: the source patterns either begin with `^` (anchored,
so `search` only tries position 0) or not.  Python's `re` treats a leading
`^` (without MULTILINE) as an anchor to the start of the string. -/
structure CompiledPattern where
  anchored : Bool
  body : Regex
  deriving DecidableEq

/-- Semantics of `compiled.search(s)` truth value: anchored patterns match
only at the start, unanchored patterns anywhere. -/
def reSearch (p : CompiledPattern) (s : List Char) : Bool :=
  if p.anchored then matchFromStart p.body s else searchFrom p.body s

/-- Semantics of `compiled.match(s)` truth value: always anchored at the
start of the string, whatever the pattern text. -/
def reMatch (p : CompiledPattern) (s : List Char) : Bool :=
  matchFromStart p.body s

/-- The opening-brace character, written by code point to keep brace
characters out of literals. -/
def lbrace : Char := Char.ofNat 123

/-- The closing-brace character, written by code point. -/
def rbrace : Char := Char.ofNat 125

/-- n-fold repetition of a regex, the expansion of `r\x7bn\x7d`. -/
def repRegex (r : Regex) : Nat → Regex
  | 0 => .epsilon
  | n + 1 => .seq r (repRegex r n)

/-- Parse one regex atom (a character class `[l-h]`, a dot, or a literal
character that is not a metacharacter), returning the atom and the rest of
the pattern text. -/
def parseAtom : List Char → Option (Regex × List Char)
  | [] => none
  | '[' :: lo :: '-' :: hi :: ']' :: rest => some (.cls lo hi, rest)
  | '.' :: rest => some (.dot, rest)
  | c :: rest =>
      if c = '*' ∨ c = '[' ∨ c = ']' ∨ c = '(' ∨ c = ')' ∨ c = '+' ∨ c = '?' ∨
         c = '|' ∨ c = '\\' ∨ c = '^' ∨ c = '$' ∨ c = lbrace ∨ c = rbrace then
        none
      else some (.char c, rest)

/-- Parse a sequence of atoms with optional postfix `*` or `\x7bd\x7d` (one
digit), fuelled by the input length: every atom consumes at least one
character, so fuel equal to the length of the text always suffices. -/
def parseSeqFuel : Nat → List Char → Option Regex
  | _, [] => some .epsilon
  | 0, _ :: _ => none
  | fuel + 1, cs =>
      match parseAtom cs with
      | none => none
      | some (r, rest) =>
          match rest with
          | '*' :: rest2 =>
              (parseSeqFuel fuel rest2).map (fun t => .seq (.star r) t)
          | d1 :: d2 :: d3 :: rest2 =>
              if d1 = lbrace ∧ d2.isDigit ∧ d3 = rbrace then
                (parseSeqFuel fuel rest2).map
                  (fun t => .seq (repRegex r (d2.toNat - 48)) t)
              else (parseSeqFuel fuel rest).map (fun t => .seq r t)
          | _ => (parseSeqFuel fuel rest).map (fun t => .seq r t)

/-- Modelled from the spec: the external `re.compile`, restricted to the
grammar subset above.  A leading `^` makes the pattern anchored.  `none`
means the pattern text falls outside the modelled subset (a genuinely
malformed regex is a fatal configuration error in the source, also `none`
here). -/
def compilePat (cs : List Char) : Option CompiledPattern :=
  match cs with
  | '^' :: rest => (parseSeqFuel rest.length rest).map (fun r => ⟨true, r⟩)
  | _ => (parseSeqFuel cs.length cs).map (fun r => ⟨false, r⟩)

/-- Modelled from the spec: Python's `re.split(':', s)` for the literal
single-character pattern, which cuts the string at every colon and always
returns at least one piece (the empty string splits to one empty piece). -/
def splitColon : List Char → List (List Char)
  | [] => [[]]
  | c :: rest =>
      if c = ':' then [] :: splitColon rest
      else
        match splitColon rest with
        | [] => [[c]]
        | p :: ps => (c :: p) :: ps

/-- An account node of the external ledger's hierarchy: a name and the list
of child accounts.  The core only traverses this structure. -/
inductive Account where
  | mk (name : List Char) (children : List Account)

/-- The name of an account node. -/
def Account.name : Account → List Char
  | .mk n _ => n

/-- The children of an account node. -/
def Account.children : Account → List Account
  | .mk _ c => c

/-- Modelled from the spec: the ledger collaborator's lookup of a direct
child account by exact name (spec section 6: "each account node supports:
get-name, list/lookup-child-by-name"); this is the `lookup_by_name` call of
`account_from_path`.  `none` also covers the source's
`account.get_instance() is None` case of an invalid reference. -/
def lookup_by_name (top : Account) (n : List Char) : Option Account :=
  top.children.find? (fun a => decide (a.name = n))

/-- The ways `account_from_path` can fail: `indexError` is the Python
`IndexError` raised by `account_path[0]` on an empty segment list;
`notFound` carries the message of the `Exception` the function raises
itself. -/
inductive PathError where
  | indexError
  | notFound (msg : List Char)
  deriving DecidableEq

/-- Embedding of `account_from_path(top_account, account_path,
original_path)` with the `original_path` argument explicit: take the head
segment (IndexError on an empty list), look it up as a child, fail with a
message built from `''.join(original_path)` if absent, descend while
segments remain. -/
def account_from_path_rec :
    Account → List (List Char) → List (List Char) → Except PathError Account
  | _, [], _ => .error .indexError
  | top_account, seg :: rest, original_path =>
      match lookup_by_name top_account seg with
      | none =>
          .error (.notFound ("A/C path ".data ++ original_path.flatten ++
            " could not be found".data))
      | some account =>
          if 0 < rest.length then account_from_path_rec account rest original_path
          else .ok account

/-- Embedding of the two-argument call `account_from_path(top, path)`: the
source's `original_path=None` default sets `original_path = account_path`. -/
def account_from_path (top_account : Account) (account_path : List (List Char)) :
    Except PathError Account :=
  account_from_path_rec top_account account_path account_path

/-- Embedding of `get_ac_from_str(str, rules, root_ac)`: scan the rules in
order; on the first pattern whose `search` succeeds, split the account path
on colons and resolve it (`ok (some ac)`), propagating resolution failures;
if no rule matches return the sentinel (`ok none`, the source's `""`). -/
def get_ac_from_str (str : List Char) (rules : List (CompiledPattern × List Char))
    (root_ac : Account) : Except PathError (Option Account) :=
  match rules with
  | [] => .ok none
  | (pattern, acpath) :: rest =>
      if reSearch pattern str then
        match account_from_path root_ac (splitColon acpath) with
        | .ok newac => .ok (some newac)
        | .error e => .error e
      else get_ac_from_str str rest root_ac

/-- Embedding of Python's `str.strip()` on a line: drop whitespace from both
ends. -/
def stripChars (cs : List Char) : List Char :=
  ((cs.dropWhile Char.isWhitespace).reverse.dropWhile Char.isWhitespace).reverse

/-- Outcome of `readrules` on one (already stripped) line: skipped (blank or
comment), dropped with a logged warning (incorrect format), or a parsed
(pattern text, account name) pair. -/
inductive LineResult where
  | skip
  | warn
  | rule (pattern account : List Char)
  deriving DecidableEq

/-- Per-line logic of `readrules` on the stripped line.  Blank lines and
lines starting with `#` are skipped.  A line starting with `"` is matched
against `^\"([^\"]+)\"\s+(.+)`: the account name is the nonempty run up to
the next double quote, then at least one whitespace character, then a
nonempty pattern running to end of line.  Any other line is matched against
`^(\S+)\s+(.+)`: the account name is the leading run of non-whitespace, then
at least one whitespace character, then a nonempty pattern to end of line.
A line matching neither form is dropped with a warning.  The greedy groups
of both regexes are deterministic here: `[^\"]+` and `\S+` cannot cross
their delimiter, and `\s+` absorbs the whole whitespace run because the line
is stripped (so it cannot end in whitespace) and contains no newline. -/
def parseLine (cs : List Char) : LineResult :=
  match cs with
  | [] => .skip
  | c :: rest =>
      if c = '#' then .skip
      else if c = '"' then
        let g1 := rest.takeWhile (fun x => decide (¬ x = '"'))
        match rest.drop g1.length with
        | '"' :: after =>
            let ws := after.takeWhile Char.isWhitespace
            let pat := after.drop ws.length
            if g1 ≠ [] ∧ ws ≠ [] ∧ pat ≠ [] then .rule pat g1 else .warn
        | _ => .warn
      else
        let g1 := cs.takeWhile (fun x => decide (¬ x.isWhitespace = true))
        let r2 := cs.drop g1.length
        let ws := r2.takeWhile Char.isWhitespace
        let pat := r2.drop ws.length
        if g1 ≠ [] ∧ ws ≠ [] ∧ pat ≠ [] then .rule pat g1 else .warn

/-- Embedding of `readrules(filename)` over the file's lines: strip each
line, apply the per-line logic, and return the `(pattern text, account
name)` pairs in order of appearance together with the list of lines dropped
with a warning (the source logs them; the warned line is the stripped one,
since the source rebinds `line = line.strip()`).  The source stores the
`re.compile` result of the pattern text; compilation is modelled separately
by `compilePat`/`compileRules`. -/
def readrules : List (List Char) → List (List Char × List Char) × List (List Char)
  | [] => ([], [])
  | l :: ls =>
      match parseLine (stripChars l) with
      | .skip => readrules ls
      | .warn =>
          let (rs, ws) := readrules ls
          (rs, stripChars l :: ws)
      | .rule pattern ac =>
          let (rs, ws) := readrules ls
          ((pattern, ac) :: rs, ws)

/-- Compile every pattern text of a parsed rule list, preserving order; the
source performs this `re.compile` step inside `readrules` and a failure is a
fatal configuration error. -/
def compileRules (rs : List (List Char × List Char)) :
    Option (List (CompiledPattern × List Char)) :=
  rs.mapM (fun r => (compilePat r.1).map (fun c => (c, r.2)))

/-- The default of the `--imbalance-ac` option in `parse_cmdline`. -/
def imbalance_ac_default : List Char := "Imbalance-[A-Z]\x7b3\x7d".data

/-- The driver's eligibility test at line 183 of the source:
`imbalance_pattern.match(acname)`. -/
def isImbalance (ip : CompiledPattern) (acname : List Char) : Bool :=
  reMatch ip acname

/-- A transaction as the driver reads it: description (`GetDescription`),
memo (`GetNotes`), and the identifiers of its splits (`GetSplitList`). -/
structure Transaction where
  description : List Char
  memo : List Char
  splits : List Nat

/-- The ledger store's state as the driver sees it: the root account, the
owning transaction of each split (`split.parent`), the current account of
each split (`split.GetAccount()`), and each account's split list
(`GetSplitList` of the account being fixed). -/
structure Book where
  root : Account
  parent : Nat → Transaction
  assign : Nat → Account
  splitsOf : Account → List Nat

/-- The run configuration the driver uses: the compiled rules, the compiled
imbalance pattern and the memo-vs-description switch. -/
structure DriverConfig where
  rules : List (CompiledPattern × List Char)
  ip : CompiledPattern
  use_memo : Bool

/-- The driver's mutable state: the split-to-account assignment and the
three counters, initialised to zero at run start. -/
structure RunState where
  assign : Nat → Account
  total : Nat
  imbalance : Nat
  fixed : Nat

/-- The search string of one transaction: memo if `--use_memo` was given,
description otherwise (lines 185-187 of the source). -/
def searchString (cfg : DriverConfig) (desc memo : List Char) : List Char :=
  if cfg.use_memo then memo else desc

/-- One iteration of the driver's inner loop (lines 179-192): read the
split's current account name; if it matches the imbalance pattern, bump
`imbalance`, classify the search string, and on a concrete result reassign
the split and bump `fixed`; a resolution failure propagates as the raised
exception. -/
def stepSplit (cfg : DriverConfig) (root : Account) (desc memo : List Char)
    (st : RunState) (sid : Nat) : Except PathError RunState :=
  let acname := (st.assign sid).name
  if isImbalance cfg.ip acname then
    match get_ac_from_str (searchString cfg desc memo) cfg.rules root with
    | .error e => .error e
    | .ok none => .ok { st with imbalance := st.imbalance + 1 }
    | .ok (some newac) =>
        .ok { st with
              assign := fun j => if j = sid then newac else st.assign j,
              imbalance := st.imbalance + 1,
              fixed := st.fixed + 1 }
  else .ok st

/-- The driver's inner loop over one transaction's split list. -/
def runSplits (cfg : DriverConfig) (root : Account) (desc memo : List Char) :
    List Nat → RunState → Except PathError RunState
  | [], st => .ok st
  | sid :: rest, st =>
      match stepSplit cfg root desc memo st sid with
      | .error e => .error e
      | .ok st1 => runSplits cfg root desc memo rest st1

/-- The driver's outer loop (lines 172-192) over the snapshot of the source
account's split list: bump `total` once per source split, then run the inner
loop over the owning transaction's splits. -/
def runOuter (cfg : DriverConfig) (book : Book) :
    List Nat → RunState → Except PathError RunState
  | [], st => .ok st
  | sid :: rest, st =>
      let tr := book.parent sid
      match runSplits cfg book.root tr.description tr.memo tr.splits
          { st with total := st.total + 1 } with
      | .error e => .error e
      | .ok st1 => runOuter cfg book rest st1

/-- The whole fix-up run of `main` starting from zeroed counters and the
store's current assignment. -/
def runDriver (cfg : DriverConfig) (book : Book) (srcSplits : List Nat) :
    Except PathError RunState :=
  runOuter cfg book srcSplits ⟨book.assign, 0, 0, 0⟩

/-- The counter triple (total, imbalance, fixed) of a run, for concrete
evaluation. -/
def runTotals (cfg : DriverConfig) (book : Book) (srcSplits : List Nat) :
    Except PathError (Nat × Nat × Nat) :=
  (runDriver cfg book srcSplits).map (fun st => (st.total, st.imbalance, st.fixed))

/-- Embedding of the exit behaviour of `main` (lines 145-202): `readrules`
and the `Session` constructor run before the `try` block, so their failures
(unreadable or invalid rules file, unopenable store) propagate as uncaught
exceptions and the interpreter exits nonzero (modelled as exit code 1);
everything from the starting-account resolution through the split loop runs
inside `try`/`except`, whose handler only logs the error, after which the
session is ended and the process exits 0.  Returns the exit code and the
final run state when the processing phase completed. -/
def mainModel (rulesOutcome : Option (List (CompiledPattern × List Char)))
    (sessionOutcome : Option Book) (ac2fix : List Char) (ip : CompiledPattern)
    (use_memo : Bool) : Nat × Option RunState :=
  match rulesOutcome with
  | none => (1, none)
  | some rules =>
      match sessionOutcome with
      | none => (1, none)
      | some book =>
          match account_from_path book.root (splitColon ac2fix) with
          | .error _ => (0, none)
          | .ok orig_account =>
              match runDriver ⟨rules, ip, use_memo⟩ book (book.splitsOf orig_account) with
              | .error _ => (0, none)
              | .ok st => (0, some st)

/-- Whether the first list is a leading run of the second (character-level
helper for stating what a message does or does not contain). -/
def startsWithSeq : List Char → List Char → Bool
  | [], _ => true
  | _ :: _, [] => false
  | a :: as, b :: bs => a = b && startsWithSeq as bs

/-- Whether the first list occurs contiguously anywhere inside the second. -/
def containsSeq (needle : List Char) : List Char → Bool
  | [] => startsWithSeq needle []
  | c :: rest => startsWithSeq needle (c :: rest) || containsSeq needle rest

/-- Eligibility of split `j` under assignment `a0`: its current account name
matches the imbalance pattern (the driver's line-183 test). -/
def eligB (cfg : DriverConfig) (a0 : Nat → Account) (j : Nat) : Bool :=
  isImbalance cfg.ip (a0 j).name

/-- Whether classification of search string `s` yields a concrete account
(the driver's `newac != ""` test). -/
def classifyB (cfg : DriverConfig) (root : Account) (s : List Char) : Bool :=
  match get_ac_from_str s cfg.rules root with
  | .ok (some _) => true
  | _ => false

/-- Number of splits in `ids` whose account under `a0` matches the
imbalance pattern. -/
def countElig (cfg : DriverConfig) (a0 : Nat → Account) (ids : List Nat) : Nat :=
  (ids.filter (eligB cfg a0)).length

/-- Number of splits in `ids` that are eligible under `a0` and whose
transaction's search string `s` classifies to a concrete account. -/
def countFix (cfg : DriverConfig) (root : Account) (a0 : Nat → Account)
    (s : List Char) (ids : List Nat) : Nat :=
  (ids.filter (fun j => eligB cfg a0 j && classifyB cfg root s)).length

/-- The split identifiers inspected while visiting source split `s`: all
splits of its owning transaction. -/
def visitIds (book : Book) (s : Nat) : List Nat :=
  (book.parent s).splits

/-- All split identifiers inspected during a run over `src`, in inspection
order (one visit per source split, every split of each visited
transaction). -/
def inspectIds (book : Book) (src : List Nat) : List Nat :=
  (src.map (visitIds book)).flatten

/-- The search string used while visiting source split `s`. -/
def searchVisit (cfg : DriverConfig) (book : Book) (s : Nat) : List Char :=
  searchString cfg (book.parent s).description (book.parent s).memo

/-- Specification-level value of the `fixed` counter: per visited source
split, the eligible inner splits whose search string classifies. -/
def fixedSpec (cfg : DriverConfig) (book : Book) (src : List Nat) : Nat :=
  (src.map (fun s =>
    countFix cfg book.root book.assign (searchVisit cfg book s) (visitIds book s))).sum

/-- What the final assignment of an inspected split must be, in terms of the
initial assignment `a0` and the search string `s` of its visit: reassigned
to the classified account when eligible and classification yields one,
otherwise unchanged. -/
def assignedTo (cfg : DriverConfig) (root : Account) (s : List Char)
    (a0 : Nat → Account) (j : Nat) (v : Account) : Prop :=
  if eligB cfg a0 j = true then
    match get_ac_from_str s cfg.rules root with
    | .ok (some t) => v = t
    | _ => v = a0 j
  else v = a0 j

/-- Whether a classification outcome is a concrete account whose own name
matches the imbalance pattern (used to state that reassignment targets are
not themselves imbalance accounts). -/
def resultImbalance (ip : CompiledPattern) : Except PathError (Option Account) → Bool
  | .ok (some a) => isImbalance ip a.name
  | _ => false

/-- Concrete account: Expenses:Dining leaf. -/
def diningAc : Account := .mk "Dining".data []

/-- Concrete account: Expenses:Groceries leaf. -/
def groceriesAc : Account := .mk "Groceries".data []

/-- Concrete account: Expenses with its two children. -/
def expensesAc : Account := .mk "Expenses".data [diningAc, groceriesAc]

/-- Concrete account: the source account being fixed. -/
def creditCardAc : Account := .mk "CreditCard".data []

/-- Concrete account: the imbalance holding account. -/
def imbalanceUsdAc : Account := .mk "Imbalance-USD".data []

/-- Concrete account hierarchy root. -/
def exampleRoot : Account :=
  .mk "Root".data [expensesAc, creditCardAc, imbalanceUsdAc]

/-- The two-line rules file of the spec's first-match example. -/
def exampleLines : List (List Char) :=
  ["Expenses:Dining ^PIZZA".data, "Expenses:Groceries ^PIZZA.*MART".data]

/-- The compiled default imbalance pattern (total by fallback; `compilePat`
on the default succeeds, as the theorems show). -/
def imbalancePatternD : CompiledPattern :=
  (compilePat imbalance_ac_default).getD ⟨false, .emptyset⟩

/-- A one-rule rules file: descriptions starting with PIZZA go to
Expenses:Dining. -/
def pizzaRulesText : List (List Char × List Char) :=
  (readrules ["Expenses:Dining ^PIZZA".data]).1

/-- The compiled form of `pizzaRulesText`. -/
def pizzaRules : List (CompiledPattern × List Char) :=
  (compileRules pizzaRulesText).getD []

/-- Driver configuration for the concrete run: the pizza rule, the default
imbalance pattern, matching on descriptions. -/
def cfg1 : DriverConfig := ⟨pizzaRules, imbalancePatternD, false⟩

/-- A two-split transaction: one leg on the credit card, one leg parked on
the imbalance account, description PIZZA HUT. -/
def tx1 : Transaction := ⟨"PIZZA HUT".data, [], [0, 1]⟩

/-- Concrete store for the fix-up run: split 0 sits in CreditCard, split 1
in Imbalance-USD; CreditCard's split list is [0]. -/
def book1 : Book :=
  ⟨exampleRoot, fun _ => tx1,
    fun j => if j = 1 then imbalanceUsdAc else creditCardAc,
    fun a => if a.name = "CreditCard".data then [0] else []⟩

/-- The final state of the first concrete run (total evaluation of
`runDriver`; the fallback branch is unreachable). -/
def run1state : RunState :=
  match runDriver cfg1 book1 [0] with
  | .ok st => st
  | .error _ => ⟨book1.assign, 0, 0, 0⟩

/-- The store after the first run: same ledger, updated assignment. -/
def book1b : Book := { book1 with assign := run1state.assign }

/-- The final state of the second (re-)run on the already-fixed store. -/
def run2state : RunState :=
  match runDriver cfg1 book1b [0] with
  | .ok st => st
  | .error _ => ⟨book1b.assign, 0, 0, 0⟩

/-- A transaction with three splits, all parked on imbalance accounts, whose
description matches no rule. -/
def tx3 : Transaction := ⟨"UNMATCHED".data, [], [0, 1, 2]⟩

/-- Store exercising a multi-split transaction: the source account list has
one split but the owning transaction carries three. -/
def book3 : Book :=
  ⟨exampleRoot, fun _ => tx3, fun _ => imbalanceUsdAc, fun _ => [0]⟩

/-- Driver configuration with an empty rule list. -/
def cfg3 : DriverConfig := ⟨[], imbalancePatternD, false⟩

theorem nullable_matchFromStart (r : Regex) (l : List Char) (h : nullable r = true) :
    matchFromStart r l = true := by
  cases l <;> simp [matchFromStart, h]

theorem matchFromStart_append (cs : List Char) :
    ∀ (r : Regex) (rest : List Char), matchFromStart r cs = true →
      matchFromStart r (cs ++ rest) = true := by
  induction cs with
  | nil => intro r rest h; exact nullable_matchFromStart r rest h
  | cons c cs ih =>
      intro r rest h
      simp only [List.cons_append, matchFromStart, Bool.or_eq_true] at h ⊢
      cases h with
      | inl h => exact Or.inl h
      | inr h => exact Or.inr (ih _ rest h)

theorem get_ac_eq_find (str : List Char) (rules : List (CompiledPattern × List Char))
    (root_ac : Account) :
    get_ac_from_str str rules root_ac =
      (match rules.find? (fun r => reSearch r.1 str) with
      | none => .ok none
      | some r =>
          match account_from_path root_ac (splitColon r.2) with
          | .ok a => .ok (some a)
          | .error e => .error e) := by
  induction rules with
  | nil => rfl
  | cons hd tl ih =>
      cases hd with
      | mk pattern acpath =>
          by_cases h : reSearch pattern str = true
          · simp [get_ac_from_str, List.find?_cons, h]
          · have hf : reSearch pattern str = false := Bool.eq_false_iff.mpr h
            simp [get_ac_from_str, List.find?_cons, hf, ih]

theorem account_from_path_rec_notFound :
    ∀ (path : List (List Char)) (top : Account) (orig : List (List Char)) (m : List Char),
      account_from_path_rec top path orig = .error (.notFound m) →
      m = "A/C path ".data ++ orig.flatten ++ " could not be found".data := by
  intro path
  induction path with
  | nil => intro top orig m h; simp [account_from_path_rec] at h
  | cons seg rest ih =>
      intro top orig m h
      simp only [account_from_path_rec] at h
      split at h
      · simp only [Except.error.injEq, PathError.notFound.injEq] at h
        exact h.symm
      · split at h
        · exact ih _ orig m h
        · simp at h

theorem splitColon_ne_nil (cs : List Char) : splitColon cs ≠ [] := by
  cases cs with
  | nil => simp [splitColon]
  | cons c rest =>
      simp only [splitColon]
      by_cases h : c = ':'
      · simp [h]
      · rw [if_neg h]
        cases hs : splitColon rest <;> simp

theorem stepSplit_not_elig (cfg : DriverConfig) (root : Account) (desc memo : List Char)
    (st : RunState) (sid : Nat) (h : eligB cfg st.assign sid = false) :
    stepSplit cfg root desc memo st sid = .ok st := by
  simp only [eligB, isImbalance] at h
  simp [stepSplit, isImbalance, h]

theorem stepSplit_none (cfg : DriverConfig) (root : Account) (desc memo : List Char)
    (st : RunState) (sid : Nat) (helig : eligB cfg st.assign sid = true)
    (hget : get_ac_from_str (searchString cfg desc memo) cfg.rules root = .ok none) :
    stepSplit cfg root desc memo st sid = .ok { st with imbalance := st.imbalance + 1 } := by
  simp only [eligB, isImbalance] at helig
  simp [stepSplit, isImbalance, helig, hget]

theorem stepSplit_some (cfg : DriverConfig) (root : Account) (desc memo : List Char)
    (st : RunState) (sid : Nat) (t : Account) (helig : eligB cfg st.assign sid = true)
    (hget : get_ac_from_str (searchString cfg desc memo) cfg.rules root = .ok (some t)) :
    stepSplit cfg root desc memo st sid =
      .ok { st with
            assign := fun j => if j = sid then t else st.assign j,
            imbalance := st.imbalance + 1,
            fixed := st.fixed + 1 } := by
  simp only [eligB, isImbalance] at helig
  simp [stepSplit, isImbalance, helig, hget]

theorem stepSplit_error (cfg : DriverConfig) (root : Account) (desc memo : List Char)
    (st : RunState) (sid : Nat) (e : PathError) (helig : eligB cfg st.assign sid = true)
    (hget : get_ac_from_str (searchString cfg desc memo) cfg.rules root = .error e) :
    stepSplit cfg root desc memo st sid = .error e := by
  simp only [eligB, isImbalance] at helig
  simp [stepSplit, isImbalance, helig, hget]

theorem assignedTo_congr (cfg : DriverConfig) (root : Account) (s : List Char)
    (a0 a1 : Nat → Account) (j : Nat) (v : Account) (hj : a0 j = a1 j) :
    assignedTo cfg root s a0 j v ↔ assignedTo cfg root s a1 j v := by
  simp [assignedTo, eligB, hj]

theorem runSplits_spec (cfg : DriverConfig) (root : Account) (desc memo : List Char) :
    ∀ (ids : List Nat) (st st' : RunState), ids.Nodup →
      runSplits cfg root desc memo ids st = .ok st' →
      st'.total = st.total ∧
      st'.imbalance = st.imbalance + countElig cfg st.assign ids ∧
      st'.fixed = st.fixed + countFix cfg root st.assign (searchString cfg desc memo) ids ∧
      (∀ j, j ∉ ids → st'.assign j = st.assign j) ∧
      (∀ j ∈ ids, assignedTo cfg root (searchString cfg desc memo) st.assign j (st'.assign j)) := by
  intro ids
  induction ids with
  | nil =>
      intro st st' _ h
      simp only [runSplits] at h
      cases h
      simp [countElig, countFix]
  | cons sid rest ih =>
      intro st st' hnd h
      rw [List.nodup_cons] at hnd
      obtain ⟨hns, hndr⟩ := hnd
      simp only [runSplits] at h
      cases helig : eligB cfg st.assign sid with
      | false =>
          rw [stepSplit_not_elig cfg root desc memo st sid helig] at h
          obtain ⟨h1, h2, h3, h4, h5⟩ := ih st st' hndr h
          refine ⟨h1, ?_, ?_, ?_, ?_⟩
          · rw [h2]
            simp [countElig, List.filter_cons, helig]
          · rw [h3]
            simp [countFix, List.filter_cons, helig]
          · intro j hj
            simp only [List.mem_cons, not_or] at hj
            exact h4 j hj.2
          · intro j hj
            rcases List.mem_cons.mp hj with rfl | hj2
            · simp only [assignedTo, helig]
              simp only [Bool.false_eq_true, if_false]
              exact h4 j hns
            · exact h5 j hj2
      | true =>
          cases hget : get_ac_from_str (searchString cfg desc memo) cfg.rules root with
          | error e =>
              rw [stepSplit_error cfg root desc memo st sid e helig hget] at h
              simp at h
          | ok oa =>
              cases oa with
              | none =>
                  rw [stepSplit_none cfg root desc memo st sid helig hget] at h
                  obtain ⟨h1, h2, h3, h4, h5⟩ := ih _ st' hndr h
                  have hcl : classifyB cfg root (searchString cfg desc memo) = false := by
                    simp [classifyB, hget]
                  refine ⟨h1, ?_, ?_, ?_, ?_⟩
                  · rw [h2]
                    simp only [RunState.imbalance]
                    simp [countElig, List.filter_cons, helig]
                    omega
                  · rw [h3]
                    simp [countFix, List.filter_cons, helig, hcl]
                  · intro j hj
                    simp only [List.mem_cons, not_or] at hj
                    exact h4 j hj.2
                  · intro j hj
                    rcases List.mem_cons.mp hj with rfl | hj2
                    · simp only [assignedTo, helig, if_true, hget]
                      exact h4 j hns
                    · exact h5 j hj2
              | some t =>
                  rw [stepSplit_some cfg root desc memo st sid t helig hget] at h
                  obtain ⟨h1, h2, h3, h4, h5⟩ := ih _ st' hndr h
            
                  have hagree : ∀ j ∈ rest,
                      (fun k => if k = sid then t else st.assign k) j = st.assign j := by
                    intro j hj
                    exact if_neg (by rintro rfl; exact hns hj)
                  have hcl : classifyB cfg root (searchString cfg desc memo) = true := by
                    simp [classifyB, hget]
                  have heligeq : ∀ j ∈ rest,
                      eligB cfg (fun k => if k = sid then t else st.assign k) j =
                        eligB cfg st.assign j := by
                    intro j hj
                    simp only [eligB, hagree j hj]
                  refine ⟨h1, ?_, ?_, ?_, ?_⟩
                  · rw [h2]
                    simp only [RunState.imbalance, RunState.assign]
                    rw [countElig, countElig, List.filter_congr heligeq]
                    simp [countElig, List.filter_cons, helig]
                    omega
                  · rw [h3]
                    simp only [RunState.fixed, RunState.assign]
                    rw [countFix, countFix,
                      List.filter_congr (fun j hj => by rw [heligeq j hj])]
                    simp [countFix, List.filter_cons, helig, hcl]
                    omega
                  · intro j hj
                    simp only [List.mem_cons, not_or] at hj
                    rw [h4 j hj.2]
                    simp only [RunState.assign]
                    exact if_neg hj.1
                  · intro j hj
                    rcases List.mem_cons.mp hj with rfl | hj2
                    · simp only [assignedTo, helig, if_true, hget]
                      rw [h4 j hns]
                      simp
                    · have := h5 j hj2
                      exact (assignedTo_congr cfg root (searchString cfg desc memo) _ _ j _
                        (by simpa using hagree j hj2)).mp this

theorem countElig_congr (cfg : DriverConfig) (a0 a1 : Nat → Account) (ids : List Nat)
    (h : ∀ j ∈ ids, a0 j = a1 j) : countElig cfg a0 ids = countElig cfg a1 ids := by
  unfold countElig
  have he : ids.filter (eligB cfg a0) = ids.filter (eligB cfg a1) :=
    List.filter_congr (fun j hj => by simp only [eligB]; rw [h j hj])
  rw [he]

theorem countFix_congr (cfg : DriverConfig) (root : Account) (a0 a1 : Nat → Account)
    (s : List Char) (ids : List Nat) (h : ∀ j ∈ ids, a0 j = a1 j) :
    countFix cfg root a0 s ids = countFix cfg root a1 s ids := by
  unfold countFix
  have he : ids.filter (fun j => eligB cfg a0 j && classifyB cfg root s) =
      ids.filter (fun j => eligB cfg a1 j && classifyB cfg root s) :=
    List.filter_congr (fun j hj => by simp only [eligB]; rw [h j hj])
  rw [he]

theorem countElig_append (cfg : DriverConfig) (a0 : Nat → Account) (l1 l2 : List Nat) :
    countElig cfg a0 (l1 ++ l2) = countElig cfg a0 l1 + countElig cfg a0 l2 := by
  simp [countElig, List.filter_append]

theorem runOuter_spec (cfg : DriverConfig) (book : Book) :
    ∀ (src : List Nat) (st st' : RunState),
      (inspectIds book src).Nodup →
      (∀ j ∈ inspectIds book src, st.assign j = book.assign j) →
      runOuter cfg book src st = .ok st' →
      st'.total = st.total + src.length ∧
      st'.imbalance = st.imbalance + countElig cfg book.assign (inspectIds book src) ∧
      st'.fixed = st.fixed + fixedSpec cfg book src ∧
      (∀ j, j ∉ inspectIds book src → st'.assign j = st.assign j) ∧
      (∀ s ∈ src, ∀ j ∈ visitIds book s,
        assignedTo cfg book.root (searchVisit cfg book s) book.assign j (st'.assign j)) := by
  intro src
  induction src with
  | nil =>
      intro st st' _ _ h
      simp only [runOuter] at h
      cases h
      simp [inspectIds, countElig, fixedSpec, countFix]
  | cons s srcr ih =>
      intro st st' hnd hinv h
      have hIcons : inspectIds book (s :: srcr) =
          visitIds book s ++ inspectIds book srcr := by
        simp [inspectIds, visitIds]
      rw [hIcons] at hnd hinv
      rw [List.nodup_append] at hnd
      obtain ⟨nd1, nd2, hdisj⟩ := hnd
      have hinvL : ∀ j ∈ visitIds book s, st.assign j = book.assign j :=
        fun j hj => hinv j (List.mem_append_left _ hj)
      have hinvR : ∀ j ∈ inspectIds book srcr, st.assign j = book.assign j :=
        fun j hj => hinv j (List.mem_append_right _ hj)
      simp only [runOuter] at h
      cases hrs : runSplits cfg book.root (book.parent s).description (book.parent s).memo
          (book.parent s).splits { st with total := st.total + 1 } with
      | error e =>
          rw [hrs] at h
          simp at h
      | ok st1 =>
          rw [hrs] at h
          obtain ⟨a1, a2, a3, a4, a5⟩ := runSplits_spec cfg book.root
            (book.parent s).description (book.parent s).memo
            (book.parent s).splits { st with total := st.total + 1 } st1 nd1 hrs
          have hinv1 : ∀ j ∈ inspectIds book srcr, st1.assign j = book.assign j := by
            intro j hj
            have hnv : j ∉ visitIds book s := fun hv => hdisj hv hj
            rw [a4 j hnv]
            exact hinvR j hj
          obtain ⟨b1, b2, b3, b4, b5⟩ := ih st1 st' nd2 hinv1 h
          have ha2 : st1.imbalance =
              st.imbalance + countElig cfg book.assign (visitIds book s) := by
            rw [a2]
            simp only [RunState.imbalance, RunState.assign]
            exact congrArg (st.imbalance + ·)
              (countElig_congr cfg st.assign book.assign _ hinvL)
          have ha3 : st1.fixed = st.fixed +
              countFix cfg book.root book.assign (searchVisit cfg book s) (visitIds book s) := by
            rw [a3]
            simp only [RunState.fixed, RunState.assign]
            exact congrArg (st.fixed + ·)
              (countFix_congr cfg book.root st.assign book.assign _ _ hinvL)
          refine ⟨?_, ?_, ?_, ?_, ?_⟩
          · rw [b1, a1]
            simp only [RunState.total, List.length_cons]
            omega
          · rw [b2, ha2, hIcons, countElig_append]
            omega
          · rw [b3, ha3]
            simp only [fixedSpec, List.map_cons, List.sum_cons]
            have : (srcr.map (fun x =>
                countFix cfg book.root book.assign (searchVisit cfg book x)
                  (visitIds book x))).sum = fixedSpec cfg book srcr := rfl
            omega
          · intro j hj
            rw [hIcons] at hj
            simp only [List.mem_append, not_or] at hj
            rw [b4 j hj.2, a4 j hj.1]
          · intro s2 hs2 j hj
            rcases List.mem_cons.mp hs2 with rfl | hs2r
            · have hnv2 : j ∉ inspectIds book srcr := fun hv => hdisj hj hv
              rw [b4 j hnv2]
              have h5 := a5 j hj
              exact (assignedTo_congr cfg book.root
                (searchString cfg (book.parent s2).description (book.parent s2).memo)
                _ _ j _ (by simpa using hinvL j hj)).mp h5
            · exact b5 s2 hs2r j hj

theorem runDriver_spec (cfg : DriverConfig) (book : Book) (src : List Nat) (st' : RunState)
    (hnd : (inspectIds book src).Nodup) (h : runDriver cfg book src = .ok st') :
    st'.total = src.length ∧
    st'.imbalance = countElig cfg book.assign (inspectIds book src) ∧
    st'.fixed = fixedSpec cfg book src ∧
    (∀ j, j ∉ inspectIds book src → st'.assign j = book.assign j) ∧
    (∀ s ∈ src, ∀ j ∈ visitIds book s,
      assignedTo cfg book.root (searchVisit cfg book s) book.assign j (st'.assign j)) := by
  obtain ⟨h1, h2, h3, h4, h5⟩ :=
    runOuter_spec cfg book src ⟨book.assign, 0, 0, 0⟩ st' hnd (fun j _ => rfl) h
  exact ⟨by simpa using h1, by simpa using h2, by simpa using h3, h4, h5⟩

theorem get_ac_nomatch (str : List Char) (rules : List (CompiledPattern × List Char))
    (root_ac : Account) (h : ∀ r ∈ rules, reSearch r.1 str = false) :
    get_ac_from_str str rules root_ac = .ok none := by
  have hf : rules.find? (fun r => reSearch r.1 str) = none :=
    List.find?_eq_none.mpr (fun x hx => by simp [h x hx])
  rw [get_ac_eq_find, hf]

theorem parseLine_no_ws (cs : List Char) (hne : cs ≠ [])
    (hnc : ¬ cs.head? = some '#')
    (hnw : ∀ c ∈ cs, c.isWhitespace = false) :
    parseLine cs = .warn := by
  cases cs with
  | nil => exact absurd rfl hne
  | cons c rest =>
      have hc : ¬ c = '#' := by simpa using hnc
      simp only [parseLine]
      rw [if_neg hc]
      by_cases hq : c = '"'
      · rw [if_pos hq]
        split
        · rename_i after heq
          have hws : after.takeWhile Char.isWhitespace = [] := by
            cases after with
            | nil => rfl
            | cons a t =>
                have hmem : a ∈ rest := by
                  have hmem2 : a ∈ rest.drop
                      (rest.takeWhile (fun x => decide (¬ x = '"'))).length := by
                    rw [heq]
                    exact List.mem_cons_of_mem _ (List.mem_cons_self a t)
                  exact List.mem_of_mem_drop hmem2
                have ha : a.isWhitespace = false := hnw a (List.mem_cons_of_mem c hmem)
                simp [List.takeWhile_cons, ha]
          rw [hws]
          simp
        · rfl
      · rw [if_neg hq]
        have hg1 : (c :: rest).takeWhile (fun x => decide (¬ x.isWhitespace = true)) =
            c :: rest :=
          List.takeWhile_eq_self_iff.mpr (fun a ha => by simp [hnw a ha])
        rw [hg1, List.drop_length]
        simp

theorem readrules_cons_warn (l : List Char) (ls : List (List Char))
    (hw : parseLine (stripChars l) = .warn) :
    readrules (l :: ls) = ((readrules ls).1, stripChars l :: (readrules ls).2) := by
  simp only [readrules, hw]

/-- C1: for every rules list and search string, `get_ac_from_str` scans the
rules in their order of appearance and the first rule whose compiled pattern
matches (regex search) determines the returned account — it equals the
resolution of the first match of an ordered scan (`List.find?`), so rule i
is tried before rule i+1 whenever both match; concretely, the file with
`Expenses:Dining ^PIZZA` before `Expenses:Groceries ^PIZZA.*MART` sends the
description "PIZZA MART #4" to Expenses:Dining. -/
theorem c1_first_match_wins :
    (∀ (str : List Char) (rules : List (CompiledPattern × List Char))
        (root_ac : Account),
      get_ac_from_str str rules root_ac =
        (match rules.find? (fun r => reSearch r.1 str) with
        | none => .ok none
        | some r =>
            match account_from_path root_ac (splitColon r.2) with
            | .ok a => .ok (some a)
            | .error e => .error e)) ∧
    (∃ crules, compileRules (readrules exampleLines).1 = some crules ∧
      get_ac_from_str "PIZZA MART #4".data crules exampleRoot = .ok (some diningAc) ∧
      diningAc.name = "Dining".data) := by
  refine ⟨get_ac_eq_find, ⟨_, rfl, ?_, rfl⟩⟩
  rfl

/-- C2: a non-blank, non-comment rules-file line consisting of a single
whitespace-delimited token is dropped with a logged warning, contributes no
rule, and the remaining lines are processed exactly as without it. -/
theorem c2_single_token_dropped (L : List Char) (post : List (List Char))
    (hne : stripChars L ≠ [])
    (hnc : ¬ (stripChars L).head? = some '#')
    (hnw : ∀ c ∈ stripChars L, c.isWhitespace = false) :
    readrules (L :: post) = ((readrules post).1, stripChars L :: (readrules post).2) :=
  readrules_cons_warn L post (parseLine_no_ws (stripChars L) hne hnc hnw)

/-- Witness for C2 at the concrete line "OnlyOneToken" followed by a normal
rule line. -/
theorem c2_single_token_dropped_witness :
    readrules ["OnlyOneToken".data, "Expenses:Dining ^PIZZA".data] =
      ((readrules ["Expenses:Dining ^PIZZA".data]).1,
        "OnlyOneToken".data :: (readrules ["Expenses:Dining ^PIZZA".data]).2) :=
  c2_single_token_dropped "OnlyOneToken".data ["Expenses:Dining ^PIZZA".data]
    (by decide) (by decide) (by decide)

/-- C3 counterexample: resolving ["Expenses", "NoSuchSub"] where `Expenses`
exists but has no child `NoSuchSub` raises a message built from
`''.join(original_path)` — "A/C path ExpensesNoSuchSub could not be found" —
which does not contain the full original path string "Expenses:NoSuchSub". -/
theorem c3_counterexample :
    account_from_path exampleRoot ["Expenses".data, "NoSuchSub".data] =
      .error (.notFound "A/C path ExpensesNoSuchSub could not be found".data) ∧
    containsSeq "Expenses:NoSuchSub".data
      "A/C path ExpensesNoSuchSub could not be found".data = false ∧
    lookup_by_name exampleRoot "Expenses".data = some expensesAc ∧
    lookup_by_name expensesAc "NoSuchSub".data = none :=
  ⟨rfl, by decide, rfl, rfl⟩

/-- C3 amended: every `notFound` failure of account-path resolution carries
a message containing all the original segments concatenated without
separators (`''.join(original_path)`) — so all segments appear, not just the
failing one, but the colon-delimited original path string does not. -/
theorem c3_amended_message (top : Account) (path : List (List Char)) (m : List Char)
    (h : account_from_path top path = .error (.notFound m)) :
    m = "A/C path ".data ++ path.flatten ++ " could not be found".data :=
  account_from_path_rec_notFound path top path m h

/-- Witness for the amended C3 at the concrete two-segment path. -/
theorem c3_amended_message_witness :
    "A/C path ExpensesNoSuchSub could not be found".data =
      "A/C path ".data ++ (["Expenses".data, "NoSuchSub".data]).flatten ++
        " could not be found".data :=
  c3_amended_message exampleRoot ["Expenses".data, "NoSuchSub".data] _ rfl

/-- C4: the compiled default imbalance pattern `Imbalance-[A-Z]\x7b3\x7d`
classifies "Imbalance-USD" and "Imbalance-EUR" as eligible and classifies
"Imbalance" and "imbalance-usd" as not eligible (matching is
case-sensitive). -/
theorem c4_default_imbalance_pattern :
    ∃ p, compilePat imbalance_ac_default = some p ∧
      isImbalance p "Imbalance-USD".data = true ∧
      isImbalance p "Imbalance-EUR".data = true ∧
      isImbalance p "Imbalance".data = false ∧
      isImbalance p "imbalance-usd".data = false :=
  ⟨imbalancePatternD, by decide, by decide, by decide, by decide, by decide⟩

/-- C5 counterexample: with one source-account split whose transaction has
three line-items, all currently on imbalance accounts and matching no rule,
a completed run reports total = 1 but imbalance = 3, although every
imbalance-counted line-item was inspected — so `total` is not incremented
once per inspected line-item as the claim states (it counts only the source
account's splits). -/
theorem c5_counterexample :
    runTotals cfg3 book3 [0] = .ok (1, 3, 0) ∧
    visitIds book3 0 = [0, 1, 2] ∧
    (∀ j ∈ visitIds book3 0, isImbalance cfg3.ip (book3.assign j).name = true) :=
  ⟨rfl, rfl, by decide⟩

/-- C5 amended: on a completed run, `total` is incremented exactly once per
split of the source account's split list (not per inspected line-item),
and — provided the inspected line-items are pairwise distinct across visits
— `imbalance` is incremented exactly once per line-item whose current
account name satisfies the imbalance predicate, `fixed` exactly once per
reassigned line-item, every line-item of every transaction touching the
source account is examined (transactions with more than two line-items
included), uninspected splits keep their assignment, and each inspected
line-item ends up reassigned exactly when it was eligible and its search
string classified. -/
theorem c5_amended_counters (cfg : DriverConfig) (book : Book) (src : List Nat)
    (st' : RunState) (hnd : (inspectIds book src).Nodup)
    (h : runDriver cfg book src = .ok st') :
    st'.total = src.length ∧
    st'.imbalance = countElig cfg book.assign (inspectIds book src) ∧
    st'.fixed = fixedSpec cfg book src ∧
    (∀ j, j ∉ inspectIds book src → st'.assign j = book.assign j) ∧
    (∀ s ∈ src, ∀ j ∈ visitIds book s,
      assignedTo cfg book.root (searchVisit cfg book s) book.assign j (st'.assign j)) :=
  runDriver_spec cfg book src st' hnd h

/-- Witness for the amended C5 on the concrete pizza book. -/
theorem c5_amended_counters_witness :
    run1state.total = 1 ∧ run1state.imbalance = 1 ∧ run1state.fixed = 1 :=
  let h := c5_amended_counters cfg1 book1 [0] run1state (by decide) rfl
  ⟨h.1, h.2.1.trans (by decide), h.2.2.1.trans (by decide)⟩

/-- C6 counterexample: with a readable rules file and an openable store but
an unresolvable starting account path ("Nope" is no child of the root), the
program exits with code 0, not a non-zero code: the resolution failure is
raised inside the `try` block, whose handler only logs it. -/
theorem c6_counterexample :
    (mainModel (some []) (some book1) "Nope".data imbalancePatternD false).1 = 0 ∧
    account_from_path book1.root (splitColon "Nope".data) =
      .error (.notFound "A/C path Nope could not be found".data) :=
  ⟨rfl, rfl⟩

/-- C6 amended: the process exits non-zero when reading the rules file fails
or the ledger store cannot be opened (both happen before the `try` block),
and exits 0 whenever both setup steps succeed — on normal completion,
including zero matches, but also when the starting account path does not
resolve or the processing phase fails, since those errors are caught and
only logged. -/
theorem c6_amended_exit_codes :
    (∀ (so : Option Book) (ac : List Char) (ip : CompiledPattern) (um : Bool),
      (mainModel none so ac ip um).1 = 1) ∧
    (∀ (rules : List (CompiledPattern × List Char)) (ac : List Char)
        (ip : CompiledPattern) (um : Bool),
      (mainModel (some rules) none ac ip um).1 = 1) ∧
    (∀ (rules : List (CompiledPattern × List Char)) (book : Book) (ac : List Char)
        (ip : CompiledPattern) (um : Bool),
      (mainModel (some rules) (some book) ac ip um).1 = 0) := by
  refine ⟨fun so ac ip um => rfl, fun rules ac ip um => rfl, ?_⟩
  intro rules book ac ip um
  simp only [mainModel]
  split
  · rfl
  · split <;> rfl

/-- C7: when no rule's pattern matches the search string, classification
returns the sentinel (`ok none`, the source's `""`) rather than an error,
the result does not depend on the account tree (no resolution is
attempted), and the driver leaves the line-item's assignment and the
`fixed` counter unchanged. -/
theorem c7_nomatch_sentinel (cfg : DriverConfig) (root : Account)
    (desc memo : List Char) (st : RunState) (sid : Nat)
    (h : ∀ r ∈ cfg.rules, reSearch r.1 (searchString cfg desc memo) = false) :
    get_ac_from_str (searchString cfg desc memo) cfg.rules root = .ok none ∧
    (∀ root2 : Account,
      get_ac_from_str (searchString cfg desc memo) cfg.rules root2 = .ok none) ∧
    ∃ st2, stepSplit cfg root desc memo st sid = .ok st2 ∧
      st2.assign = st.assign ∧ st2.fixed = st.fixed := by
  have hget : ∀ root2 : Account,
      get_ac_from_str (searchString cfg desc memo) cfg.rules root2 = .ok none :=
    fun root2 => get_ac_nomatch _ _ root2 h
  refine ⟨hget root, hget, ?_⟩
  cases helig : eligB cfg st.assign sid with
  | false => exact ⟨st, stepSplit_not_elig cfg root desc memo st sid helig, rfl, rfl⟩
  | true =>
      exact ⟨{ st with imbalance := st.imbalance + 1 },
        stepSplit_none cfg root desc memo st sid helig (hget root), rfl, rfl⟩

/-- Witness for C7 with the pizza rules and a description they do not
match. -/
theorem c7_nomatch_sentinel_witness :
    get_ac_from_str (searchString cfg1 "XYZ".data []) cfg1.rules exampleRoot = .ok none ∧
    (∃ st2, stepSplit cfg1 exampleRoot "XYZ".data [] ⟨book1.assign, 0, 0, 0⟩ 1 = .ok st2 ∧
      st2.assign = book1.assign ∧ st2.fixed = 0) :=
  let h := c7_nomatch_sentinel cfg1 exampleRoot "XYZ".data [] ⟨book1.assign, 0, 0, 0⟩ 1
    (by decide)
  ⟨h.1, h.2.2⟩

/-- C9: account-path resolution on an empty segment list fails with the
out-of-bounds indexing error (never with the path-not-found error), and
every caller satisfies the non-emptiness precondition because splitting a
string on ':' always yields at least one segment. -/
theorem c9_empty_path_precondition :
    (∀ top : Account, account_from_path top [] = .error .indexError) ∧
    (∀ (top : Account) (m : List Char),
      ¬ account_from_path top [] = .error (.notFound m)) ∧
    (∀ cs : List Char, 1 ≤ (splitColon cs).length) := by
  refine ⟨fun top => rfl, fun top m => by simp [account_from_path, account_from_path_rec], ?_⟩
  intro cs
  exact List.length_pos.mpr (splitColon_ne_nil cs)

/-- C10: the imbalance predicate is anchored only at the start of the
account name — whenever a name is eligible, any extension of it is also
eligible — and under the default pattern the account name
"Imbalance-USD-old" is eligible. -/
theorem c10_prefix_anchored :
    (∀ (p : CompiledPattern) (cs rest : List Char), isImbalance p cs = true →
      isImbalance p (cs ++ rest) = true) ∧
    isImbalance imbalancePatternD "Imbalance-USD-old".data = true ∧
    compilePat imbalance_ac_default = some imbalancePatternD := by
  refine ⟨?_, by decide, by decide⟩
  intro p cs rest h
  exact matchFromStart_append cs p.body rest h

/-- Witness for C10: "Imbalance-USD" is eligible and stays eligible with
"-old" appended. -/
theorem c10_prefix_anchored_witness :
    isImbalance imbalancePatternD ("Imbalance-USD".data ++ "-old".data) = true :=
  c10_prefix_anchored.1 imbalancePatternD "Imbalance-USD".data "-old".data (by decide)

theorem runSplits_stable_assign (cfg : DriverConfig) (root : Account)
    (desc memo : List Char)
    (hT : ∀ t, get_ac_from_str (searchString cfg desc memo) cfg.rules root =
      .ok (some t) → isImbalance cfg.ip t.name = false) :
    ∀ (ids : List Nat) (st st' : RunState),
      runSplits cfg root desc memo ids st = .ok st' →
      ∀ j, eligB cfg st'.assign j = true → st'.assign j = st.assign j := by
  intro ids
  induction ids with
  | nil =>
      intro st st' h j _
      cases h
      rfl
  | cons sid rest ih =>
      intro st st' h j hj
      simp only [runSplits] at h
      cases helig : eligB cfg st.assign sid with
      | false =>
          rw [stepSplit_not_elig cfg root desc memo st sid helig] at h
          exact ih st st' h j hj
      | true =>
          cases hget : get_ac_from_str (searchString cfg desc memo) cfg.rules root with
          | error e =>
              rw [stepSplit_error cfg root desc memo st sid e helig hget] at h
              simp at h
          | ok oa =>
              cases oa with
              | none =>
                  rw [stepSplit_none cfg root desc memo st sid helig hget] at h
                  exact ih _ st' h j hj
              | some t =>
                  rw [stepSplit_some cfg root desc memo st sid t helig hget] at h
                  have hstep := ih _ st' h j hj
                  by_cases hjs : j = sid
                  · subst hjs
                    have hja : st'.assign j = t := by
                      rw [hstep]
                      simp
                    simp only [eligB] at hj
                    rw [hja] at hj
                    have hni : isImbalance cfg.ip t.name = false := hT t hget
                    rw [hni] at hj
                    simp at hj
                  · rw [hstep]
                    simp [hjs]

theorem runOuter_stable_assign (cfg : DriverConfig) (book : Book) :
    ∀ (src : List Nat) (st st' : RunState),
      (∀ s ∈ src, ∀ t, get_ac_from_str (searchVisit cfg book s) cfg.rules book.root =
        .ok (some t) → isImbalance cfg.ip t.name = false) →
      runOuter cfg book src st = .ok st' →
      ∀ j, eligB cfg st'.assign j = true → st'.assign j = st.assign j := by
  intro src
  induction src with
  | nil =>
      intro st st' _ h j _
      cases h
      rfl
  | cons s0 rest ih =>
      intro st st' hT h j hj
      simp only [runOuter] at h
      cases hrs : runSplits cfg book.root (book.parent s0).description (book.parent s0).memo
          (book.parent s0).splits { st with total := st.total + 1 } with
      | error e =>
          rw [hrs] at h
          simp at h
      | ok st1 =>
          rw [hrs] at h
          have hrest := ih st1 st' (fun s hs => hT s (List.mem_cons_of_mem s0 hs)) h j hj
          simp only [eligB] at hj
          rw [hrest] at hj ⊢
          have hvisit := runSplits_stable_assign cfg book.root
            (book.parent s0).description (book.parent s0).memo
            (hT s0 (List.mem_cons_self s0 rest)) (book.parent s0).splits
            { st with total := st.total + 1 } st1 hrs j hj
          rw [hvisit]

theorem runSplits_elig_classify_none (cfg : DriverConfig) (root : Account)
    (desc memo : List Char)
    (hT : ∀ t, get_ac_from_str (searchString cfg desc memo) cfg.rules root =
      .ok (some t) → isImbalance cfg.ip t.name = false) :
    ∀ (ids : List Nat) (st st' : RunState),
      runSplits cfg root desc memo ids st = .ok st' →
      ∀ j ∈ ids, eligB cfg st'.assign j = true →
        classifyB cfg root (searchString cfg desc memo) = false := by
  intro ids
  induction ids with
  | nil =>
      intro st st' _ j hj
      simp at hj
  | cons sid rest ih =>
      intro st st' h j hj hje
      simp only [runSplits] at h
      cases helig : eligB cfg st.assign sid with
      | false =>
          rw [stepSplit_not_elig cfg root desc memo st sid helig] at h
          rcases List.mem_cons.mp hj with rfl | hjr
          · have hstable := runSplits_stable_assign cfg root desc memo hT rest st st' h j hje
            simp only [eligB] at hje
            rw [hstable] at hje
            simp only [eligB] at helig
            rw [hje] at helig
            simp at helig
          · exact ih st st' h j hjr hje
      | true =>
          cases hget : get_ac_from_str (searchString cfg desc memo) cfg.rules root with
          | error e =>
              rw [stepSplit_error cfg root desc memo st sid e helig hget] at h
              simp at h
          | ok oa =>
              cases oa with
              | none => simp [classifyB, hget]
              | some t =>
                  rw [stepSplit_some cfg root desc memo st sid t helig hget] at h
                  rcases List.mem_cons.mp hj with rfl | hjr
                  · have hstable := runSplits_stable_assign cfg root desc memo hT rest _ st' h j hje
                    have hja : st'.assign j = t := by
                      rw [hstable]
                      simp
                    simp only [eligB] at hje
                    rw [hja] at hje
                    rw [hT t hget] at hje
                    simp at hje
                  · exact ih _ st' h j hjr hje

theorem runOuter_elig_classify_none (cfg : DriverConfig) (book : Book) :
    ∀ (src : List Nat) (st st' : RunState),
      (∀ s ∈ src, ∀ t, get_ac_from_str (searchVisit cfg book s) cfg.rules book.root =
        .ok (some t) → isImbalance cfg.ip t.name = false) →
      runOuter cfg book src st = .ok st' →
      ∀ s ∈ src, ∀ j ∈ visitIds book s, eligB cfg st'.assign j = true →
        classifyB cfg book.root (searchVisit cfg book s) = false := by
  intro src
  induction src with
  | nil =>
      intro st st' _ _ s hs
      simp at hs
  | cons s0 rest ih =>
      intro st st' hT h s hs j hj hje
      simp only [runOuter] at h
      cases hrs : runSplits cfg book.root (book.parent s0).description (book.parent s0).memo
          (book.parent s0).splits { st with total := st.total + 1 } with
      | error e =>
          rw [hrs] at h
          simp at h
      | ok st1 =>
          rw [hrs] at h
          rcases List.mem_cons.mp hs with rfl | hsr
          · have hstable := runOuter_stable_assign cfg book rest st1 st'
              (fun s2 hs2 => hT s2 (List.mem_cons_of_mem s hs2)) h j hje
            simp only [eligB] at hje
            rw [hstable] at hje
            exact runSplits_elig_classify_none cfg book.root
              (book.parent s).description (book.parent s).memo
              (hT s (List.mem_cons_self s rest)) (book.parent s).splits
              { st with total := st.total + 1 } st1 hrs j hj hje
          · exact ih st1 st' (fun s2 hs2 => hT s2 (List.mem_cons_of_mem s0 hs2)) h s hsr j hj hje

theorem runSplits_no_fix (cfg : DriverConfig) (root : Account) (desc memo : List Char) :
    ∀ (ids : List Nat) (st st' : RunState),
      (∀ j ∈ ids, eligB cfg st.assign j = true →
        classifyB cfg root (searchString cfg desc memo) = false) →
      runSplits cfg root desc memo ids st = .ok st' →
      st'.fixed = st.fixed ∧ ∀ j, st'.assign j = st.assign j := by
  intro ids
  induction ids with
  | nil =>
      intro st st' _ h
      cases h
      exact ⟨rfl, fun j => rfl⟩
  | cons sid rest ih =>
      intro st st' hC h
      simp only [runSplits] at h
      cases helig : eligB cfg st.assign sid with
      | false =>
          rw [stepSplit_not_elig cfg root desc memo st sid helig] at h
          exact ih st st' (fun j hj => hC j (List.mem_cons_of_mem sid hj)) h
      | true =>
          have hcl : classifyB cfg root (searchString cfg desc memo) = false :=
            hC sid (List.mem_cons_self sid rest) helig
          cases hget : get_ac_from_str (searchString cfg desc memo) cfg.rules root with
          | error e =>
              rw [stepSplit_error cfg root desc memo st sid e helig hget] at h
              simp at h
          | ok oa =>
              cases oa with
              | none =>
                  rw [stepSplit_none cfg root desc memo st sid helig hget] at h
                  exact ih { st with imbalance := st.imbalance + 1 } st'
                    (fun j hj => hC j (List.mem_cons_of_mem sid hj)) h
              | some t =>
                  have : classifyB cfg root (searchString cfg desc memo) = true := by
                    simp [classifyB, hget]
                  rw [this] at hcl
                  simp at hcl

theorem runOuter_no_fix (cfg : DriverConfig) (book : Book) :
    ∀ (src : List Nat) (st st' : RunState),
      (∀ s ∈ src, ∀ j ∈ visitIds book s, eligB cfg st.assign j = true →
        classifyB cfg book.root (searchVisit cfg book s) = false) →
      runOuter cfg book src st = .ok st' →
      st'.fixed = st.fixed ∧ ∀ j, st'.assign j = st.assign j := by
  intro src
  induction src with
  | nil =>
      intro st st' _ h
      cases h
      exact ⟨rfl, fun j => rfl⟩
  | cons s0 rest ih =>
      intro st st' hC h
      simp only [runOuter] at h
      cases hrs : runSplits cfg book.root (book.parent s0).description (book.parent s0).memo
          (book.parent s0).splits { st with total := st.total + 1 } with
      | error e =>
          rw [hrs] at h
          simp at h
      | ok st1 =>
          rw [hrs] at h
          obtain ⟨hf1, hp1⟩ := runSplits_no_fix cfg book.root
            (book.parent s0).description (book.parent s0).memo (book.parent s0).splits
            { st with total := st.total + 1 } st1
            (fun j hj hje => hC s0 (List.mem_cons_self s0 rest) j hj hje) hrs
          have hp1s : ∀ j, st1.assign j = st.assign j := hp1
          obtain ⟨hf2, hp2⟩ := ih st1 st'
            (fun s hs j hj hje => by
              have hje2 : eligB cfg st.assign j = true := by
                simp only [eligB] at hje ⊢
                rw [← hp1s j]
                exact hje
              exact hC s (List.mem_cons_of_mem s0 hs) j hj hje2) h
          refine ⟨by rw [hf2, hf1], fun j => by rw [hp2 j, hp1s j]⟩

/-- C8: re-running the fix-up on the same store with the same rules, after a
first run has completed, reassigns zero additional line-items (and changes
no assignment), provided no reassignment target produced by classification
itself satisfies the imbalance predicate: once a line-item's account no
longer matches the predicate it is never reassigned again. -/
theorem c8_rerun_fixes_nothing (cfg : DriverConfig) (book : Book) (src : List Nat)
    (st1 st2 : RunState)
    (h1 : runDriver cfg book src = .ok st1)
    (htarget : ∀ s ∈ src, resultImbalance cfg.ip
      (get_ac_from_str (searchVisit cfg book s) cfg.rules book.root) = false)
    (h2 : runDriver cfg { book with assign := st1.assign } src = .ok st2) :
    st2.fixed = 0 ∧ ∀ j, st2.assign j = st1.assign j := by
  have hT : ∀ s ∈ src, ∀ t,
      get_ac_from_str (searchVisit cfg book s) cfg.rules book.root = .ok (some t) →
      isImbalance cfg.ip t.name = false := by
    intro s hs t hgt
    have hr := htarget s hs
    rw [hgt] at hr
    exact hr
  have hD2 := runOuter_elig_classify_none cfg book src ⟨book.assign, 0, 0, 0⟩ st1 hT h1
  obtain ⟨hf, hp⟩ := runOuter_no_fix cfg { book with assign := st1.assign } src
    ⟨st1.assign, 0, 0, 0⟩ st2 (fun s hs j hj hje => hD2 s hs j hj hje) h2
  exact ⟨hf, hp⟩

/-- Witness for C8 on the concrete pizza book: the second run fixes
nothing. -/
theorem c8_rerun_fixes_nothing_witness : run2state.fixed = 0 :=
  (c8_rerun_fixes_nothing cfg1 book1 [0] run1state run2state rfl (by decide) rfl).1
